import Mathlib

/-!
# Verification of the pngme chunk layer (`src/chunk_type.rs`, `src/chunk.rs`)

Shallow embedding of the PNG-chunk data model of the repository:
bytes are `Nat` values below 256, byte slices are `List Nat`, the
fallible Rust functions return `Except`/an explicit result type, and the
panic that `Chunk::try_from` can perform through `.unwrap()` is modelled
by a dedicated `panicked` result.
-/

namespace Pngme

/-- Rust `u8::is_ascii_uppercase` on a byte value. -/
def is_ascii_uppercase (b : Nat) : Bool := 65 ≤ b && b ≤ 90

/-- Rust `u8::is_ascii_lowercase` on a byte value. -/
def is_ascii_lowercase (b : Nat) : Bool := 97 ≤ b && b ≤ 122

/-- Rust `u8::is_ascii_alphabetic` on a byte value. -/
def is_ascii_alphabetic (b : Nat) : Bool :=
  is_ascii_uppercase b || is_ascii_lowercase b

/-- Rust `u32::from_be_bytes` on a 4-byte slice (big-endian). -/
def u32_from_be (bs : List Nat) : Nat :=
  bs.foldl (fun acc b => acc * 256 + b) 0

/-- Rust `u32::to_be_bytes` of a 32-bit value. -/
def u32_to_be (n : Nat) : List Nat :=
  [n / 2 ^ 24 % 256, n / 2 ^ 16 % 256, n / 2 ^ 8 % 256, n % 256]

/-- One shift step of the reflected CRC-32/ISO-HDLC register:
divide by two and, when the dropped bit was set, xor in the reflected
polynomial `0xEDB88320`. This models the `crc` crate's
`CRC_32_ISO_HDLC` algorithm (poly `0x04C11DB7`, `refin = refout = true`,
`init = xorout = 0xFFFFFFFF`). -/
def crcStep (c : Nat) : Nat :=
  if c % 2 = 1 then c / 2 ^^^ 0xEDB88320 else c / 2

/-- Absorb one message byte into the CRC register: xor it in, then run
eight register shift steps. -/
def crcByte (c b : Nat) : Nat := crcStep^[8] (c ^^^ b)

/-- Fold a whole message into the CRC register starting from `init`. -/
def crcFold (init : Nat) (m : List Nat) : Nat := m.foldl crcByte init

/-- `Crc::<u32>::new(&CRC_32_ISO_HDLC).checksum(m)`: register starts at
`0xFFFFFFFF` and the final value is xored with `0xFFFFFFFF`. -/
def crc32 (m : List Nat) : Nat := crcFold 0xFFFFFFFF m ^^^ 0xFFFFFFFF

/-- The two static error strings of `src/chunk_type.rs`, as named by the
spec: `InvalidTypeCode` from `TryFrom<[u8; 4]>`, `InvalidLength` from
`FromStr`. -/
inductive ChunkTypeError where
  | invalidTypeCode
  | invalidLength
  deriving DecidableEq, Repr

/-- `ChunkType` of `src/chunk_type.rs`: a 4-byte PNG chunk type code
(the `[u8; 4]` is a `List Nat`; every call site supplies 4 bytes). -/
structure ChunkType where
  bytes : List Nat
  deriving DecidableEq, Repr

/-- `impl TryFrom<[u8; 4]> for ChunkType`: reject the array when any
byte is neither an ASCII lowercase nor an ASCII uppercase letter. -/
def ChunkType.try_from (value : List Nat) : Except ChunkTypeError ChunkType :=
  if value.any (fun b => !is_ascii_lowercase b && !is_ascii_uppercase b) then
    .error .invalidTypeCode
  else
    .ok ⟨value⟩

/-- `impl FromStr for ChunkType`: the string is its UTF-8 byte list;
reject when its byte length is not 4, otherwise delegate to
`ChunkType.try_from`. -/
def ChunkType.from_str (s : List Nat) : Except ChunkTypeError ChunkType :=
  if s.length ≠ 4 then .error .invalidLength
  else ChunkType.try_from s

/-- `ChunkType::is_critical`: byte 0 is ASCII uppercase. -/
def ChunkType.is_critical (t : ChunkType) : Bool :=
  is_ascii_uppercase (t.bytes.getD 0 0)

/-- `ChunkType::is_public`: byte 1 is ASCII uppercase. -/
def ChunkType.is_public (t : ChunkType) : Bool :=
  is_ascii_uppercase (t.bytes.getD 1 0)

/-- `ChunkType::is_reserved_bit_valid`: byte 2 is ASCII uppercase. -/
def ChunkType.is_reserved_bit_valid (t : ChunkType) : Bool :=
  is_ascii_uppercase (t.bytes.getD 2 0)

/-- `ChunkType::is_safe_to_copy`: byte 3 is ASCII lowercase. -/
def ChunkType.is_safe_to_copy (t : ChunkType) : Bool :=
  is_ascii_lowercase (t.bytes.getD 3 0)

/-- `ChunkType::is_valid`: the length-4 check, the reserved bit, and
all bytes ASCII alphabetic, in the source's order. -/
def ChunkType.is_valid (t : ChunkType) : Bool :=
  t.bytes.length == 4 &&
  t.is_reserved_bit_valid &&
  t.bytes.all is_ascii_alphabetic

/-- The error strings of `Chunk`'s `TryFrom<&[u8]>` in `src/chunk.rs`,
as named by the spec, with the `format!` arguments kept as payloads. -/
inductive ChunkError where
  | tooShort
  | lengthMismatch (expected got : Nat)
  | crcMismatch (expected got : Nat)
  deriving DecidableEq, Repr

/-- `Chunk` of `src/chunk.rs`. -/
structure Chunk where
  length : Nat
  chunk_type : ChunkType
  data : List Nat
  crc : Nat
  deriving DecidableEq, Repr

/-- Result of `Chunk::try_from`: `Ok`, `Err`, or a panic (`panicked`
models the `.unwrap()` on line 33 of `src/chunk.rs` hitting an `Err`). -/
inductive ParseResult where
  | ok (c : Chunk)
  | err (e : ChunkError)
  | panicked
  deriving DecidableEq, Repr

/-- `impl TryFrom<&[u8]> for Chunk`, line for line: the two length
checks, `ChunkType::try_from(...).unwrap()` (whose failure is a panic),
the data and crc slices, and the CRC comparison. -/
def Chunk.try_from (value : List Nat) : ParseResult :=
  if value.length < 12 then
    .err .tooShort
  else
    let length := u32_from_be (value.take 4)
    let total_length := 4 + 4 + length + 4
    if value.length ≠ total_length then
      .err (.lengthMismatch total_length value.length)
    else
      let bytes_array := (value.drop 4).take 4
      match ChunkType.try_from bytes_array with
      | .error _ => .panicked
      | .ok chunk_type =>
        let end_data := 8 + length
        let data := (value.drop 8).take length
        let crc := u32_from_be ((value.drop end_data).take 4)
        let expected_crc := crc32 (chunk_type.bytes ++ data)
        if crc ≠ expected_crc then
          .err (.crcMismatch expected_crc crc)
        else
          .ok { length, chunk_type, data, crc }

/-- `Chunk::new`: `data.len() as u32` is the length modulo `2^32`, and
the CRC is computed over the type bytes followed by the data. -/
def Chunk.new (chunk_type : ChunkType) (data : List Nat) : Chunk :=
  { length := data.length % 2 ^ 32
    chunk_type := chunk_type
    data := data
    crc := crc32 (chunk_type.bytes ++ data) }

/-- `Chunk::as_bytes`: big-endian length, type bytes, data, big-endian
CRC. -/
def Chunk.as_bytes (c : Chunk) : List Nat :=
  u32_to_be c.length ++ c.chunk_type.bytes ++ c.data ++ u32_to_be c.crc

/-- Flip bit `j` of byte `i` of a byte slice. -/
def flipBit (value : List Nat) (i j : Nat) : List Nat :=
  value.set i (value.getD i 0 ^^^ 2 ^ j)

/-! ## Arithmetic helper lemmas on xor -/

lemma xor_div_two (x y : Nat) : (x ^^^ y) / 2 = x / 2 ^^^ y / 2 := by
  apply Nat.eq_of_testBit_eq
  intro i
  simp [Nat.testBit_div_two, Nat.testBit_xor]

lemma xor_mod_two (x y : Nat) : (x ^^^ y) % 2 = x % 2 ^^^ y % 2 := by
  rw [← Nat.and_one_is_mod, ← Nat.and_one_is_mod, ← Nat.and_one_is_mod,
    Nat.and_xor_distrib_right]

/-! ## GF(2)-linearity of the CRC register -/

lemma xor_left_comm (a b c : Nat) : a ^^^ (b ^^^ c) = b ^^^ (a ^^^ c) := by
  rw [← Nat.xor_assoc, Nat.xor_comm a b, Nat.xor_assoc]

lemma crcStep_xor (x y : Nat) : crcStep (x ^^^ y) = crcStep x ^^^ crcStep y := by
  unfold crcStep
  rcases Nat.mod_two_eq_zero_or_one x with hx | hx <;>
    rcases Nat.mod_two_eq_zero_or_one y with hy | hy <;>
      simp only [xor_mod_two, hx, hy, xor_div_two] <;> norm_num <;>
        simp [Nat.xor_comm, Nat.xor_assoc, xor_left_comm, Nat.xor_self, Nat.xor_zero]

lemma crcStep_iterate_xor (n x y : Nat) :
    crcStep^[n] (x ^^^ y) = crcStep^[n] x ^^^ crcStep^[n] y := by
  induction n generalizing x y with
  | zero => rfl
  | succ k ih =>
    rw [Function.iterate_succ_apply, Function.iterate_succ_apply,
      Function.iterate_succ_apply, crcStep_xor, ih]

lemma crcStep_zero : crcStep 0 = 0 := rfl

lemma crcStep_iterate_zero (n : Nat) : crcStep^[n] 0 = 0 :=
  Function.iterate_fixed crcStep_zero n

lemma crcByte_xor (x y a b : Nat) :
    crcByte (x ^^^ y) (a ^^^ b) = crcByte x a ^^^ crcByte y b := by
  unfold crcByte
  rw [← crcStep_iterate_xor]
  congr 1
  rw [Nat.xor_assoc, ← Nat.xor_assoc y a b, Nat.xor_comm y a, Nat.xor_assoc a y b,
    ← Nat.xor_assoc]

lemma crcFold_xor (m1 m2 : List Nat) (a b : Nat) (h : m1.length = m2.length) :
    crcFold (a ^^^ b) (List.zipWith (· ^^^ ·) m1 m2) = crcFold a m1 ^^^ crcFold b m2 := by
  induction m1 generalizing m2 a b with
  | nil => cases m2 with
    | nil => rfl
    | cons y ys => simp at h
  | cons x xs ih =>
    cases m2 with
    | nil => simp at h
    | cons y ys =>
      simp only [List.zipWith_cons_cons, crcFold, List.foldl_cons]
      rw [crcByte_xor]
      exact ih ys (crcByte a x) (crcByte b y) (by simpa using h)

/-! ## The CRC register never maps a nonzero 32-bit state to zero -/

lemma crcStep_lt (x : Nat) (h : x < 2 ^ 32) : crcStep x < 2 ^ 32 := by
  unfold crcStep
  split
  · exact Nat.xor_lt_two_pow (by omega) (by norm_num)
  · omega

lemma crcStep_ne_zero (x : Nat) (h : x < 2 ^ 32) (hx : x ≠ 0) : crcStep x ≠ 0 := by
  unfold crcStep
  split
  · intro hc
    rw [Nat.xor_eq_zero] at hc
    omega
  · omega

lemma crcStep_iterate_ne_zero (n x : Nat) (h : x < 2 ^ 32) (hx : x ≠ 0) :
    crcStep^[n] x ≠ 0 ∧ crcStep^[n] x < 2 ^ 32 := by
  induction n generalizing x with
  | zero => exact ⟨hx, h⟩
  | succ k ih =>
    rw [Function.iterate_succ_apply]
    exact ih (crcStep x) (crcStep_lt x h) (crcStep_ne_zero x h hx)

/-! ## Folding the single-bit error pattern -/

lemma crcFold_replicate_zero (k : Nat) (s : Nat) :
    crcFold s (List.replicate k 0) = crcStep^[8 * k] s := by
  induction k generalizing s with
  | zero => rfl
  | succ n ih =>
    rw [List.replicate_succ]
    show crcFold (crcByte s 0) (List.replicate n 0) = _
    rw [ih, crcByte, Nat.xor_zero, ← Function.iterate_add_apply]
    have h8 : 8 * (n + 1) = 8 * n + 8 := by ring
    rw [h8]

lemma crcFold_delta (p k e : Nat) :
    crcFold 0 (List.replicate p 0 ++ e :: List.replicate k 0) =
      crcStep^[8 * k + 8] e := by
  unfold crcFold
  rw [List.foldl_append]
  show crcFold (crcFold 0 (List.replicate p 0)) (e :: List.replicate k 0) = _
  rw [crcFold_replicate_zero, crcStep_iterate_zero]
  show crcFold (crcByte 0 e) (List.replicate k 0) = _
  rw [crcFold_replicate_zero, crcByte, Nat.zero_xor, ← Function.iterate_add_apply]

lemma zipWith_xor_replicate_zero (m : List Nat) :
    List.zipWith (· ^^^ ·) m (List.replicate m.length 0) = m := by
  induction m with
  | nil => rfl
  | cons x xs ih => simp only [List.length_cons, List.replicate_succ,
      List.zipWith_cons_cons, Nat.xor_zero, ih]

lemma set_xor_eq_zipWith_delta (m : List Nat) (p e : Nat) (hp : p < m.length) :
    m.set p (m.getD p 0 ^^^ e) =
      List.zipWith (· ^^^ ·) m
        (List.replicate p 0 ++ e :: List.replicate (m.length - p - 1) 0) := by
  induction m generalizing p with
  | nil => simp at hp
  | cons x xs ih =>
    cases p with
    | zero =>
      simp only [List.getD_cons_zero, List.set_cons_zero, List.length_cons,
        List.replicate, List.nil_append, List.zipWith_cons_cons]
      have hl : xs.length + 1 - 0 - 1 = xs.length := by omega
      rw [hl, zipWith_xor_replicate_zero]
    | succ q =>
      simp only [List.getD_cons_succ, List.set_cons_succ, List.replicate,
        List.cons_append, List.zipWith_cons_cons, Nat.xor_zero, List.length_cons]
      have hl : xs.length + 1 - (q + 1) - 1 = xs.length - q - 1 := by omega
      rw [hl, ih q (by simpa using hp)]

/-- Flipping bit `j` (with `j < 8`, so within the byte) of any byte of a
message changes its CRC-32/ISO-HDLC checksum. -/
lemma crc32_set_xor_ne (m : List Nat) (p j : Nat) (hp : p < m.length) (hj : j < 8) :
    crc32 (m.set p (m.getD p 0 ^^^ 2 ^ j)) ≠ crc32 m := by
  have hd := set_xor_eq_zipWith_delta m p (2 ^ j) hp
  have hlen : m.length =
      (List.replicate p 0 ++ (2 ^ j) :: List.replicate (m.length - p - 1) 0).length := by
    simp only [List.length_append, List.length_cons, List.length_replicate]
    omega
  have hfold := crcFold_xor m
    (List.replicate p 0 ++ (2 ^ j) :: List.replicate (m.length - p - 1) 0)
    0xFFFFFFFF 0 hlen
  rw [← hd, Nat.xor_zero] at hfold
  have hdelta : crcFold 0
      (List.replicate p 0 ++ (2 ^ j) :: List.replicate (m.length - p - 1) 0) ≠ 0 := by
    rw [crcFold_delta]
    exact (crcStep_iterate_ne_zero _ _
      (by calc 2 ^ j < 2 ^ 8 := Nat.pow_lt_pow_right (by omega) hj
        _ < 2 ^ 32 := by norm_num)
      (Nat.pos_iff_ne_zero.mp (Nat.pos_pow_of_pos j (by omega)))).1
  intro hcontra
  have hEq : crcFold 0xFFFFFFFF (m.set p (m.getD p 0 ^^^ 2 ^ j)) =
      crcFold 0xFFFFFFFF m := by
    unfold crc32 at hcontra
    have h2 := congrArg (· ^^^ (0xFFFFFFFF : Nat)) hcontra
    simpa [Nat.xor_cancel_right] using h2
  rw [hEq] at hfold
  have h3 := congrArg (fun z => crcFold 0xFFFFFFFF m ^^^ z) hfold
  simp only [Nat.xor_self, Nat.xor_cancel_left] at h3
  exact hdelta h3.symm

/-! ## Range of the CRC register -/

lemma crcStep_iterate_lt (n x : Nat) (h : x < 2 ^ 32) : crcStep^[n] x < 2 ^ 32 := by
  induction n generalizing x with
  | zero => exact h
  | succ k ih =>
    rw [Function.iterate_succ_apply]
    exact ih (crcStep x) (crcStep_lt x h)

lemma crcByte_lt (c b : Nat) (hc : c < 2 ^ 32) (hb : b < 256) : crcByte c b < 2 ^ 32 :=
  crcStep_iterate_lt 8 _ (Nat.xor_lt_two_pow hc (by omega))

lemma crcFold_lt (m : List Nat) (s : Nat) (hs : s < 2 ^ 32)
    (hm : ∀ b ∈ m, b < 256) : crcFold s m < 2 ^ 32 := by
  induction m generalizing s with
  | nil => exact hs
  | cons x xs ih =>
    exact ih (crcByte s x) (crcByte_lt s x hs (hm x (by simp)))
      (fun b hb => hm b (by simp [hb]))

lemma crc32_lt (m : List Nat) (hm : ∀ b ∈ m, b < 256) : crc32 m < 2 ^ 32 :=
  Nat.xor_lt_two_pow (crcFold_lt m _ (by norm_num) hm) (by norm_num)

/-! ## u32 big-endian helpers -/

lemma u32_to_be_length (n : Nat) : (u32_to_be n).length = 4 := rfl

lemma u32_from_be_to_be (n : Nat) (h : n < 2 ^ 32) : u32_from_be (u32_to_be n) = n := by
  simp only [u32_from_be, u32_to_be, List.foldl_cons, List.foldl_nil]
  have h32 : (2 : Nat) ^ 32 = 4294967296 := by norm_num
  have h24 : (2 : Nat) ^ 24 = 16777216 := by norm_num
  have h16 : (2 : Nat) ^ 16 = 65536 := by norm_num
  have h8 : (2 : Nat) ^ 8 = 256 := by norm_num
  rw [h32] at h
  rw [h24, h16, h8]
  omega

lemma exists_four (bs : List Nat) (h : bs.length = 4) :
    ∃ a b c d, bs = [a, b, c, d] := by
  rcases bs with _ | ⟨a, bs⟩
  · simp only [List.length_nil] at h; omega
  rcases bs with _ | ⟨b, bs⟩
  · simp only [List.length_cons, List.length_nil] at h; omega
  rcases bs with _ | ⟨c, bs⟩
  · simp only [List.length_cons, List.length_nil] at h; omega
  rcases bs with _ | ⟨d, bs⟩
  · simp only [List.length_cons, List.length_nil] at h; omega
  rcases bs with _ | ⟨e, bs⟩
  · exact ⟨a, b, c, d, rfl⟩
  · simp only [List.length_cons] at h; omega

lemma u32_from_be_lt (bs : List Nat) (h4 : bs.length = 4)
    (hb : ∀ b ∈ bs, b < 256) : u32_from_be bs < 2 ^ 32 := by
  obtain ⟨a, b, c, d, rfl⟩ := exists_four bs h4
  have ha := hb a (by simp)
  have hb2 := hb b (by simp)
  have hc := hb c (by simp)
  have hd := hb d (by simp)
  simp only [u32_from_be, List.foldl_cons, List.foldl_nil]
  have h32 : (2 : Nat) ^ 32 = 4294967296 := by norm_num
  rw [h32]
  omega

/-! ## ChunkType helper lemmas -/

lemma is_ascii_alphabetic_lt (b : Nat) (h : is_ascii_alphabetic b = true) : b < 256 := by
  simp only [is_ascii_alphabetic, is_ascii_uppercase, is_ascii_lowercase,
    Bool.or_eq_true, Bool.and_eq_true, decide_eq_true_eq] at h
  omega

lemma ChunkType.try_from_eq_ok (v : List Nat)
    (h : ∀ b ∈ v, is_ascii_alphabetic b) :
    ChunkType.try_from v = .ok ⟨v⟩ := by
  unfold ChunkType.try_from
  rw [if_neg]
  intro hc
  rw [List.any_eq_true] at hc
  obtain ⟨b, hbv, hb⟩ := hc
  have halpha := h b hbv
  simp only [is_ascii_alphabetic, Bool.or_eq_true] at halpha
  simp only [Bool.and_eq_true, Bool.not_eq_true'] at hb
  rcases halpha with hu | hu <;> simp [hu] at hb

lemma ChunkType.try_from_ok_inv (v : List Nat) (t : ChunkType)
    (h : ChunkType.try_from v = .ok t) :
    t = ⟨v⟩ ∧ ∀ b ∈ v, is_ascii_alphabetic b := by
  unfold ChunkType.try_from at h
  split at h
  · exact absurd h (by simp)
  · rename_i hcond
    refine ⟨by cases h; rfl, fun b hbv => ?_⟩
    rw [List.any_eq_true] at hcond
    push_neg at hcond
    have hbool := hcond b hbv
    cases hl : is_ascii_lowercase b <;> cases hu : is_ascii_uppercase b <;>
      simp_all [is_ascii_alphabetic]

lemma ChunkType.try_from_eq_error (v : List Nat)
    (h : ∃ b ∈ v, is_ascii_alphabetic b = false) :
    ChunkType.try_from v = .error .invalidTypeCode := by
  unfold ChunkType.try_from
  rw [if_pos]
  obtain ⟨b, hbv, hb⟩ := h
  rw [List.any_eq_true]
  refine ⟨b, hbv, ?_⟩
  simp only [is_ascii_alphabetic, Bool.or_eq_false_iff] at hb
  simp only [Bool.and_eq_true, Bool.not_eq_true']
  exact ⟨hb.2, hb.1⟩

/-! ## Chunk helper lemmas -/

lemma Chunk.new_length (t : ChunkType) (d : List Nat) :
    (Chunk.new t d).length = d.length % 2 ^ 32 := rfl

lemma Chunk.new_chunk_type (t : ChunkType) (d : List Nat) :
    (Chunk.new t d).chunk_type = t := rfl

lemma Chunk.new_data (t : ChunkType) (d : List Nat) :
    (Chunk.new t d).data = d := rfl

lemma Chunk.as_bytes_length (c : Chunk) (h4 : c.chunk_type.bytes.length = 4) :
    c.as_bytes.length = 12 + c.data.length := by
  simp only [Chunk.as_bytes, List.length_append, u32_to_be_length, h4]
  omega

/-- Slice decomposition of `Chunk::as_bytes`: the four regions the parser
reads back are exactly the four fields that were serialized. -/
lemma Chunk.as_bytes_slices (c : Chunk) (h4 : c.chunk_type.bytes.length = 4) :
    c.as_bytes.take 4 = u32_to_be c.length ∧
    (c.as_bytes.drop 4).take 4 = c.chunk_type.bytes ∧
    (c.as_bytes.drop 8).take c.data.length = c.data ∧
    (c.as_bytes.drop (8 + c.data.length)).take 4 = u32_to_be c.crc := by
  simp only [Chunk.as_bytes, List.append_assoc]
  have hd8 : ∀ l : List Nat, l.drop 8 = (l.drop 4).drop 4 := by
    intro l
    rw [List.drop_drop]
  refine ⟨List.take_left' (u32_to_be_length c.length), ?_, ?_, ?_⟩
  · rw [List.drop_left' (u32_to_be_length c.length), List.take_left' h4]
  · rw [hd8, List.drop_left' (u32_to_be_length c.length), List.drop_left' h4,
      List.take_left' rfl]
  · rw [← List.drop_drop, hd8, List.drop_left' (u32_to_be_length c.length),
      List.drop_left' h4, List.drop_left' rfl,
      List.take_of_length_le (by rw [u32_to_be_length])]

/-- A chunk whose fields are mutually consistent (4 alphabetic type
bytes, matching length, data bytes in range, stored CRC equal to the
computed one) parses back from its serialization unchanged. -/
lemma Chunk.try_from_as_bytes (c : Chunk)
    (h4 : c.chunk_type.bytes.length = 4)
    (halpha : ∀ b ∈ c.chunk_type.bytes, is_ascii_alphabetic b)
    (hlen : c.length = c.data.length)
    (hlt : c.data.length < 2 ^ 32)
    (hdb : ∀ b ∈ c.data, b < 256)
    (hcrc : c.crc = crc32 (c.chunk_type.bytes ++ c.data)) :
    Chunk.try_from c.as_bytes = .ok c := by
  obtain ⟨hs1, hs2, hs3, hs4⟩ := Chunk.as_bytes_slices c h4
  have hlength := Chunk.as_bytes_length c h4
  have hcl : c.length < 2 ^ 32 := hlen ▸ hlt
  have hcrclt : c.crc < 2 ^ 32 := by
    rw [hcrc]
    refine crc32_lt _ (fun b hb => ?_)
    rcases List.mem_append.mp hb with hmem | hmem
    · exact is_ascii_alphabetic_lt b (halpha b hmem)
    · exact hdb b hmem
  simp only [Chunk.try_from, hlength, hs1, hlen, u32_from_be_to_be c.data.length hlt,
    hs2, ChunkType.try_from_eq_ok c.chunk_type.bytes halpha, hs3, hs4,
    u32_from_be_to_be c.crc hcrclt]
  rw [if_neg (by omega), if_neg (by omega)]
  simp only [← hcrc]
  rw [if_neg (by omega)]
  rw [← hlen]

/-- Inversion of a successful `Chunk::try_from`: the parsed fields are
the four slices of the input, the length checks held, the type bytes are
alphabetic, and the stored CRC equals the recomputed one. -/
lemma Chunk.parse_ok_inv (value : List Nat) (c : Chunk)
    (h : Chunk.try_from value = .ok c) :
    12 ≤ value.length ∧
    value.length = 4 + 4 + u32_from_be (value.take 4) + 4 ∧
    c.length = u32_from_be (value.take 4) ∧
    c.chunk_type = ⟨(value.drop 4).take 4⟩ ∧
    (∀ b ∈ (value.drop 4).take 4, is_ascii_alphabetic b) ∧
    c.data = (value.drop 8).take (u32_from_be (value.take 4)) ∧
    c.crc = u32_from_be ((value.drop (8 + u32_from_be (value.take 4))).take 4) ∧
    c.crc = crc32 (c.chunk_type.bytes ++ c.data) := by
  simp only [Chunk.try_from] at h
  split at h
  · exact absurd h (by simp)
  · rename_i h12
    split at h
    · exact absurd h (by simp)
    · rename_i hne
      push_neg at hne
      split at h
      · exact absurd h (by simp)
      · rename_i t hty
        obtain ⟨hteq, htalpha⟩ := ChunkType.try_from_ok_inv _ _ hty
        split at h
        · exact absurd h (by simp)
        · rename_i hcrcok
          push_neg at hcrcok
          cases h
          refine ⟨by omega, hne, rfl, hteq, htalpha, rfl, rfl, ?_⟩
          rw [hcrcok, hteq]

/-! ## Interaction of `List.set` with the parser's slices -/

lemma drop_take_set_outside (l : List Nat) (x : Nat) (n k i : Nat)
    (h : i < n ∨ n + k ≤ i) :
    ((l.set i x).drop n).take k = (l.drop n).take k := by
  apply List.ext_getElem?
  intro m
  rw [List.getElem?_take, List.getElem?_take]
  split
  · rename_i hm
    rw [List.getElem?_drop, List.getElem?_drop, List.getElem?_set, if_neg (by omega)]
  · rfl

lemma drop_take_set_inside (l : List Nat) (x : Nat) (n k i : Nat)
    (h1 : n ≤ i) :
    ((l.set i x).drop n).take k = ((l.drop n).take k).set (i - n) x := by
  apply List.ext_getElem?
  intro m
  simp only [List.getElem?_take, List.getElem?_drop, List.getElem?_set,
    List.length_take, List.length_drop, List.length_set]
  split_ifs <;> first | rfl | (exfalso; omega)

/-- The CRC-covered region of a parser input: type bytes followed by
data bytes is one contiguous slice. -/
lemma slice_message (value : List Nat) (N : Nat) :
    (value.drop 4).take 4 ++ (value.drop 8).take N = (value.drop 4).take (4 + N) := by
  rw [List.take_add, List.drop_drop]

/-- Flipping one bit inside the type/data region of an input that
parses successfully, while keeping the type bytes letters, makes the
parse fail with a CRC mismatch. -/
lemma flip_breaks_crc (value : List Nat) (c : Chunk) (i j : Nat)
    (hok : Chunk.try_from value = .ok c)
    (hi4 : 4 ≤ i) (hiN : i + 4 < value.length) (hj : j < 8)
    (htype : 8 ≤ i ∨ is_ascii_alphabetic (value.getD i 0 ^^^ 2 ^ j)) :
    ∃ e g, Chunk.try_from (flipBit value i j) = .err (.crcMismatch e g) := by
  obtain ⟨h12, hlen, hclen, hct, halpha, hdata, hcrc1, hcrc2⟩ :=
    Chunk.parse_ok_inv value c hok
  unfold flipBit
  have hflen : (value.set i (value.getD i 0 ^^^ 2 ^ j)).length = value.length :=
    List.length_set value i _
  have htake4 : (value.set i (value.getD i 0 ^^^ 2 ^ j)).take 4 = value.take 4 := by
    have h := drop_take_set_outside value (value.getD i 0 ^^^ 2 ^ j) 0 4 i
      (Or.inr (by omega))
    rwa [List.drop_zero, List.drop_zero] at h
  have halpha2 : ∀ b ∈ ((value.set i (value.getD i 0 ^^^ 2 ^ j)).drop 4).take 4,
      is_ascii_alphabetic b := by
    rcases Nat.lt_or_ge i 8 with hi8 | hi8
    · rw [drop_take_set_inside value _ 4 4 i hi4]
      intro b hb
      rcases List.mem_or_eq_of_mem_set hb with hmem | heqb
      · exact halpha b hmem
      · subst heqb
        rcases htype with h8 | hfl
        · omega
        · exact hfl
    · rw [drop_take_set_outside value _ 4 4 i (Or.inr (by omega))]
      exact halpha
  have hbyte : ((value.drop 4).take (4 + u32_from_be (value.take 4))).getD (i - 4) 0 =
      value.getD i 0 := by
    rw [List.getD_eq_getElem?_getD, List.getD_eq_getElem?_getD,
      List.getElem?_take, if_pos (by omega), List.getElem?_drop]
    have h44 : 4 + (i - 4) = i := by omega
    rw [h44]
  have hmsg : ((value.set i (value.getD i 0 ^^^ 2 ^ j)).drop 4).take
      (4 + u32_from_be (value.take 4)) =
      ((value.drop 4).take (4 + u32_from_be (value.take 4))).set (i - 4)
        (((value.drop 4).take (4 + u32_from_be (value.take 4))).getD (i - 4) 0 ^^^ 2 ^ j) := by
    rw [drop_take_set_inside value _ 4 (4 + u32_from_be (value.take 4)) i hi4, hbyte]
  have hmlen : ((value.drop 4).take (4 + u32_from_be (value.take 4))).length =
      4 + u32_from_be (value.take 4) := by
    simp only [List.length_take, List.length_drop]
    omega
  have hne := crc32_set_xor_ne ((value.drop 4).take (4 + u32_from_be (value.take 4)))
    (i - 4) j (by rw [hmlen]; omega) hj
  have hstored : ((value.set i (value.getD i 0 ^^^ 2 ^ j)).drop
      (8 + u32_from_be (value.take 4))).take 4 =
      (value.drop (8 + u32_from_be (value.take 4))).take 4 :=
    drop_take_set_outside value _ (8 + u32_from_be (value.take 4)) 4 i
      (Or.inl (by omega))
  have hstored_val : u32_from_be ((value.drop (8 + u32_from_be (value.take 4))).take 4) =
      crc32 ((value.drop 4).take (4 + u32_from_be (value.take 4))) := by
    rw [← hcrc1, hcrc2]
    simp only [hct, hdata]
    rw [slice_message]
  have hfinal : Chunk.try_from (value.set i (value.getD i 0 ^^^ 2 ^ j)) =
      .err (.crcMismatch
        (crc32 (((value.drop 4).take (4 + u32_from_be (value.take 4))).set (i - 4)
          (((value.drop 4).take (4 + u32_from_be (value.take 4))).getD (i - 4) 0 ^^^ 2 ^ j)))
        (crc32 ((value.drop 4).take (4 + u32_from_be (value.take 4))))) := by
    simp only [Chunk.try_from, hflen, htake4]
    rw [if_neg (by omega), if_neg (by omega)]
    simp only [ChunkType.try_from_eq_ok _ halpha2]
    rw [hstored, hstored_val, slice_message, hmsg, if_pos (Ne.symm hne)]
  exact ⟨_, _, hfinal⟩

/-! ## Claim theorems -/

set_option maxRecDepth 10000

/-- C1: the claim says `Chunk::try_from` propagates `InvalidTypeCode`
when the type bytes contain a non-letter; the code instead calls
`.unwrap()` on the failed `ChunkType::try_from` and panics. At the
12-byte input with length 0, type bytes `"Ru1t"` (the byte 49 = `'1'`
is not a letter) and stored CRC 0, both length checks pass and the
parse panics. -/
theorem c1_invalid_type_code_panics :
    Chunk.try_from [0, 0, 0, 0, 82, 117, 49, 116, 0, 0, 0, 0] = .panicked := by
  decide

/-- C3 (counterexample): `Chunk::new` computes `data.len() as u32`, so
for a data vector of `2^32` bytes the stored length is 0, not the
number of bytes in the data. -/
theorem c3_length_truncation :
    (Chunk.new ⟨[82, 117, 83, 116]⟩ (List.replicate (2 ^ 32) 0)).length ≠
      (List.replicate (2 ^ 32) 0).length := by
  simp only [Chunk.new, List.length_replicate, Nat.mod_self]
  norm_num

/-- C3 (amended): `Chunk::new` is total; its length field is
`data.len()` reduced modulo `2^32` (hence exactly `data.len()` whenever
the data has fewer than `2^32` bytes), and its crc field is the
CRC-32/ISO-HDLC checksum of the type bytes concatenated with the
data. -/
theorem c3_new_fields (t : ChunkType) (data : List Nat) :
    (Chunk.new t data).length = data.length % 2 ^ 32 ∧
    (data.length < 2 ^ 32 → (Chunk.new t data).length = data.length) ∧
    (Chunk.new t data).crc = crc32 (t.bytes ++ data) :=
  ⟨rfl, fun h => by simp only [Chunk.new, Nat.mod_eq_of_lt h], rfl⟩

theorem c3_new_fields_witness :
    (Chunk.new ⟨[82, 117, 83, 116]⟩ [7, 8]).length = [7, 8].length :=
  (c3_new_fields ⟨[82, 117, 83, 116]⟩ [7, 8]).2.1 (by norm_num)

/-- C5: `Chunk::try_from` fails with `TooShort` on every input of fewer
than 12 bytes, and on every input of at least 12 bytes it fails with
`LengthMismatch` exactly when the total byte count differs from
`4 + 4 + N + 4`, `N` being the first four bytes read big-endian. -/
theorem c5_length_checks (value : List Nat) :
    (value.length < 12 → Chunk.try_from value = .err .tooShort) ∧
    (12 ≤ value.length →
      ((∃ e g, Chunk.try_from value = .err (.lengthMismatch e g)) ↔
        value.length ≠ 4 + 4 + u32_from_be (value.take 4) + 4)) := by
  constructor
  · intro h
    simp only [Chunk.try_from]
    rw [if_pos h]
  · intro h12
    simp only [Chunk.try_from]
    rw [if_neg (by omega)]
    split
    · rename_i hne
      exact ⟨fun _ => hne, fun _ => ⟨_, _, rfl⟩⟩
    · rename_i heq
      constructor
      · rintro ⟨e, g, hh⟩
        rcases hty : ChunkType.try_from ((value.drop 4).take 4) with e2 | ct <;>
          rw [hty] at hh
        · exact absurd hh (by simp)
        · split at hh
          · simp_all
          · split at hh <;> simp_all
      · intro hR
        exact absurd hR heq


theorem c5_length_checks_witness :
    Chunk.try_from [0, 0, 0] = .err .tooShort ∧
    (∃ e g, Chunk.try_from [0, 0, 0, 1, 82, 117, 83, 116, 0, 0, 0, 0] =
      .err (.lengthMismatch e g)) :=
  ⟨(c5_length_checks [0, 0, 0]).1 (by decide),
   ((c5_length_checks [0, 0, 0, 1, 82, 117, 83, 116, 0, 0, 0, 0]).2
     (by decide)).mpr (by decide)⟩

/-- C6: on a 4-byte array, `ChunkType`'s `TryFrom` fails with
`InvalidTypeCode` exactly when some byte is neither an ASCII uppercase
nor an ASCII lowercase letter, and on success the stored bytes are the
input array unchanged. -/
theorem c6_chunk_type_try_from (b : List Nat) (h4 : b.length = 4) :
    ((ChunkType.try_from b = .error .invalidTypeCode) ↔
      ∃ x ∈ b, ¬(is_ascii_uppercase x = true ∨ is_ascii_lowercase x = true)) ∧
    (∀ t, ChunkType.try_from b = .ok t → t.bytes = b) := by
  constructor
  · by_cases hall : ∀ x ∈ b, is_ascii_alphabetic x
    · rw [ChunkType.try_from_eq_ok b hall]
      constructor
      · intro hh
        exact absurd hh (by simp)
      · rintro ⟨x, hxb, hx⟩
        have := hall x hxb
        simp only [is_ascii_alphabetic, Bool.or_eq_true] at this
        exact absurd this hx
    · push_neg at hall
      obtain ⟨x, hxb, hx⟩ := hall
      have hxf : is_ascii_alphabetic x = false := by
        simpa [Bool.not_eq_true] using hx
      rw [ChunkType.try_from_eq_error b ⟨x, hxb, hxf⟩]
      simp only [is_ascii_alphabetic, Bool.or_eq_false_iff] at hxf
      exact ⟨fun _ => ⟨x, hxb, by simp [hxf.1, hxf.2]⟩, fun _ => rfl⟩
  · intro t ht
    rw [(ChunkType.try_from_ok_inv b t ht).1]

theorem c6_chunk_type_try_from_witness :
    ChunkType.try_from [82, 117, 49, 116] = .error .invalidTypeCode ∧
    (∀ t, ChunkType.try_from [82, 117, 83, 116] = .ok t →
      t.bytes = [82, 117, 83, 116]) :=
  ⟨(c6_chunk_type_try_from [82, 117, 49, 116] rfl).1.mpr
     ⟨49, by decide, by decide⟩,
   (c6_chunk_type_try_from [82, 117, 83, 116] rfl).2⟩

/-- C7: `ChunkType`'s `FromStr` fails with `InvalidLength` exactly when
the byte length of the string is not 4, and on byte length 4 it returns
exactly what `TryFrom` returns on the raw bytes. -/
theorem c7_from_str (s : List Nat) :
    ((ChunkType.from_str s = .error .invalidLength) ↔ s.length ≠ 4) ∧
    (s.length = 4 → ChunkType.from_str s = ChunkType.try_from s) := by
  constructor
  · constructor
    · intro h hlen
      unfold ChunkType.from_str at h
      rw [if_neg (by omega)] at h
      unfold ChunkType.try_from at h
      split at h <;> simp at h
    · intro h
      unfold ChunkType.from_str
      rw [if_pos h]
  · intro h
    unfold ChunkType.from_str
    rw [if_neg (by omega)]

theorem c7_from_str_witness :
    ChunkType.from_str [82, 117, 115] = .error .invalidLength ∧
    ChunkType.from_str [82, 117, 49, 116] = ChunkType.try_from [82, 117, 49, 116] :=
  ⟨(c7_from_str [82, 117, 115]).1.mpr (by decide),
   (c7_from_str [82, 117, 49, 116]).2 (by decide)⟩

/-- C8: the case-bit semantics of the four flag accessors on any 4-byte
chunk type (critical = byte 0 uppercase, public = byte 1 uppercase,
reserved-bit-valid = byte 2 uppercase, safe-to-copy = byte 3 lowercase,
valid = all bytes alphabetic and byte 2 uppercase), together with the
concrete values on `"RuSt"` and `"Rust"`. -/
theorem c8_flag_semantics :
    (∀ t : ChunkType, t.bytes.length = 4 →
      ((t.is_critical = true ↔ 65 ≤ t.bytes.getD 0 0 ∧ t.bytes.getD 0 0 ≤ 90) ∧
       (t.is_public = true ↔ 65 ≤ t.bytes.getD 1 0 ∧ t.bytes.getD 1 0 ≤ 90) ∧
       (t.is_reserved_bit_valid = true ↔ 65 ≤ t.bytes.getD 2 0 ∧ t.bytes.getD 2 0 ≤ 90) ∧
       (t.is_safe_to_copy = true ↔ 97 ≤ t.bytes.getD 3 0 ∧ t.bytes.getD 3 0 ≤ 122) ∧
       (t.is_valid = true ↔
         (∀ b ∈ t.bytes, is_ascii_alphabetic b) ∧ t.is_reserved_bit_valid = true))) ∧
    ((ChunkType.mk [82, 117, 83, 116]).is_critical = true ∧
     (ChunkType.mk [82, 117, 83, 116]).is_public = false ∧
     (ChunkType.mk [82, 117, 83, 116]).is_reserved_bit_valid = true ∧
     (ChunkType.mk [82, 117, 83, 116]).is_safe_to_copy = true ∧
     (ChunkType.mk [82, 117, 83, 116]).is_valid = true ∧
     (ChunkType.mk [82, 117, 115, 116]).is_reserved_bit_valid = false ∧
     (ChunkType.mk [82, 117, 115, 116]).is_valid = false) := by
  constructor
  · intro t h4
    refine ⟨?_, ?_, ?_, ?_, ?_⟩
    · simp [ChunkType.is_critical, is_ascii_uppercase]
    · simp [ChunkType.is_public, is_ascii_uppercase]
    · simp [ChunkType.is_reserved_bit_valid, is_ascii_uppercase]
    · simp [ChunkType.is_safe_to_copy, is_ascii_lowercase]
    · simp only [ChunkType.is_valid, h4, beq_self_eq_true, Bool.true_and,
        Bool.and_eq_true, List.all_eq_true]
      tauto
  · exact ⟨by decide, by decide, by decide, by decide, by decide, by decide, by decide⟩

theorem c8_flag_semantics_witness :
    (ChunkType.mk [82, 117, 83, 116]).is_critical = true :=
  ((c8_flag_semantics.1 ⟨[82, 117, 83, 116]⟩ rfl).1).mpr (by decide)

/-- C9: whenever both length checks of `Chunk::try_from` succeed, all
four slice accesses of the parser stay within the input: each region's
upper bound is at most the input length, and each slice has exactly the
expected number of elements. -/
theorem c9_slice_bounds (value : List Nat)
    (h12 : 12 ≤ value.length)
    (hlen : value.length = 4 + 4 + u32_from_be (value.take 4) + 4) :
    4 ≤ value.length ∧ 8 ≤ value.length ∧
    8 + u32_from_be (value.take 4) ≤ value.length ∧
    8 + u32_from_be (value.take 4) + 4 ≤ value.length ∧
    (value.take 4).length = 4 ∧
    ((value.drop 4).take 4).length = 4 ∧
    ((value.drop 8).take (u32_from_be (value.take 4))).length =
      u32_from_be (value.take 4) ∧
    ((value.drop (8 + u32_from_be (value.take 4))).take 4).length = 4 := by
  refine ⟨by omega, by omega, by omega, by omega, ?_, ?_, ?_, ?_⟩ <;>
    simp only [List.length_take, List.length_drop] <;> omega

theorem c9_slice_bounds_witness :
    4 ≤ ([0, 0, 0, 0, 82, 117, 83, 116, 0, 0, 0, 0] : List Nat).length ∧
    8 ≤ ([0, 0, 0, 0, 82, 117, 83, 116, 0, 0, 0, 0] : List Nat).length ∧
    8 + u32_from_be (([0, 0, 0, 0, 82, 117, 83, 116, 0, 0, 0, 0] : List Nat).take 4) ≤
      ([0, 0, 0, 0, 82, 117, 83, 116, 0, 0, 0, 0] : List Nat).length ∧
    8 + u32_from_be (([0, 0, 0, 0, 82, 117, 83, 116, 0, 0, 0, 0] : List Nat).take 4) + 4 ≤
      ([0, 0, 0, 0, 82, 117, 83, 116, 0, 0, 0, 0] : List Nat).length ∧
    (([0, 0, 0, 0, 82, 117, 83, 116, 0, 0, 0, 0] : List Nat).take 4).length = 4 ∧
    ((([0, 0, 0, 0, 82, 117, 83, 116, 0, 0, 0, 0] : List Nat).drop 4).take 4).length = 4 ∧
    ((([0, 0, 0, 0, 82, 117, 83, 116, 0, 0, 0, 0] : List Nat).drop 8).take
        (u32_from_be (([0, 0, 0, 0, 82, 117, 83, 116, 0, 0, 0, 0] : List Nat).take 4))).length =
      u32_from_be (([0, 0, 0, 0, 82, 117, 83, 116, 0, 0, 0, 0] : List Nat).take 4) ∧
    ((([0, 0, 0, 0, 82, 117, 83, 116, 0, 0, 0, 0] : List Nat).drop
        (8 + u32_from_be (([0, 0, 0, 0, 82, 117, 83, 116, 0, 0, 0, 0] : List Nat).take 4))).take
        4).length = 4 :=
  c9_slice_bounds [0, 0, 0, 0, 82, 117, 83, 116, 0, 0, 0, 0] (by decide) (by decide)

/-- C10: every `ChunkType` built through either public constructor has
four ASCII-alphabetic bytes, so `is_valid` coincides with
`is_reserved_bit_valid` on it. -/
theorem c10_constructor_invariant :
    (∀ (b : List Nat) (t : ChunkType), b.length = 4 →
      ChunkType.try_from b = .ok t →
      (∀ x ∈ t.bytes, is_ascii_alphabetic x) ∧ t.bytes.length = 4 ∧
      t.is_valid = t.is_reserved_bit_valid) ∧
    (∀ (s : List Nat) (t : ChunkType), ChunkType.from_str s = .ok t →
      (∀ x ∈ t.bytes, is_ascii_alphabetic x) ∧ t.bytes.length = 4 ∧
      t.is_valid = t.is_reserved_bit_valid) := by
  have key : ∀ (b : List Nat) (t : ChunkType), b.length = 4 →
      ChunkType.try_from b = .ok t →
      (∀ x ∈ t.bytes, is_ascii_alphabetic x) ∧ t.bytes.length = 4 ∧
      t.is_valid = t.is_reserved_bit_valid := by
    intro b t h4 ht
    obtain ⟨hteq, halpha⟩ := ChunkType.try_from_ok_inv b t ht
    subst hteq
    refine ⟨halpha, h4, ?_⟩
    have hall : (List.all b is_ascii_alphabetic) = true := by
      rw [List.all_eq_true]
      exact halpha
    simp only [ChunkType.is_valid, h4, hall]
    cases hr : (ChunkType.mk b).is_reserved_bit_valid <;> simp [hr]
  constructor
  · exact key
  · intro s t hs
    unfold ChunkType.from_str at hs
    split at hs
    · exact absurd hs (by simp)
    · rename_i hlen
      push_neg at hlen
      exact key s t hlen hs

theorem c10_constructor_invariant_witness :
    (∀ x ∈ (ChunkType.mk [82, 117, 115, 116]).bytes, is_ascii_alphabetic x) ∧
    (ChunkType.mk [82, 117, 115, 116]).bytes.length = 4 ∧
    (ChunkType.mk [82, 117, 115, 116]).is_valid =
      (ChunkType.mk [82, 117, 115, 116]).is_reserved_bit_valid :=
  c10_constructor_invariant.1 [82, 117, 115, 116] ⟨[82, 117, 115, 116]⟩ rfl rfl

/-- C2 (counterexample): for a chunk built by `Chunk::new` from a data
vector of `2^32` bytes the stored length truncates to 0, so parsing the
serialization fails with a length mismatch instead of reproducing the
chunk. -/
theorem c2_roundtrip_counterexample :
    Chunk.try_from
        ((Chunk.new ⟨[82, 117, 83, 116]⟩ (List.replicate (2 ^ 32) 0)).as_bytes) =
      .err (.lengthMismatch 12 (12 + 2 ^ 32)) := by
  have h4 : (Chunk.new ⟨[82, 117, 83, 116]⟩
      (List.replicate (2 ^ 32) 0)).chunk_type.bytes.length = 4 := by
    rw [Chunk.new_chunk_type]
    rfl
  have hlen : (Chunk.new ⟨[82, 117, 83, 116]⟩
      (List.replicate (2 ^ 32) 0)).as_bytes.length = 12 + 2 ^ 32 := by
    rw [Chunk.as_bytes_length _ h4, Chunk.new_data, List.length_replicate]
  have htake := (Chunk.as_bytes_slices
    (Chunk.new ⟨[82, 117, 83, 116]⟩ (List.replicate (2 ^ 32) 0)) h4).1
  have hlength0 : (Chunk.new ⟨[82, 117, 83, 116]⟩
      (List.replicate (2 ^ 32) 0)).length = 0 := by
    rw [Chunk.new_length, List.length_replicate, Nat.mod_self]
  rw [hlength0] at htake
  simp only [Chunk.try_from, hlen, htake, u32_from_be_to_be 0 (by norm_num)]
  rw [if_neg (by norm_num), if_pos (by norm_num)]

/-- C2 (amended): the round-trip law holds for every chunk built by
`Chunk::new` from fewer than `2^32` data bytes (with a well-formed
chunk type, as every Rust `ChunkType` is), and for every chunk obtained
from a prior successful parse of a byte slice. -/
theorem c2_roundtrip :
    (∀ (t : ChunkType) (data : List Nat),
      t.bytes.length = 4 →
      (∀ b ∈ t.bytes, is_ascii_alphabetic b) →
      (∀ b ∈ data, b < 256) →
      data.length < 2 ^ 32 →
      Chunk.try_from (Chunk.new t data).as_bytes = .ok (Chunk.new t data)) ∧
    (∀ (value : List Nat) (c : Chunk),
      (∀ b ∈ value, b < 256) →
      Chunk.try_from value = .ok c →
      Chunk.try_from c.as_bytes = .ok c) := by
  constructor
  · intro t data h4 halpha hdb hlt
    exact Chunk.try_from_as_bytes (Chunk.new t data) h4 halpha
      (Nat.mod_eq_of_lt hlt) hlt hdb rfl
  · intro value c hb hok
    obtain ⟨h12, hlen, hclen, hct, halpha, hdata, hcrc1, hcrc2⟩ :=
      Chunk.parse_ok_inv value c hok
    have hNlt : u32_from_be (value.take 4) < 2 ^ 32 := by
      refine u32_from_be_lt _ ?_ ?_
      · simp only [List.length_take]
        omega
      · exact fun b hb2 => hb b (List.take_subset 4 value hb2)
    refine Chunk.try_from_as_bytes c ?_ ?_ ?_ ?_ ?_ hcrc2
    · rw [hct]
      simp only [List.length_take, List.length_drop]
      omega
    · rw [hct]
      exact halpha
    · rw [hclen, hdata]
      simp only [List.length_take, List.length_drop]
      omega
    · rw [hdata]
      simp only [List.length_take, List.length_drop]
      omega
    · rw [hdata]
      exact fun b hb2 =>
        hb b (List.drop_subset 8 value (List.take_subset _ _ hb2))

theorem c2_roundtrip_witness :
    Chunk.try_from (Chunk.new ⟨[82, 117, 83, 116]⟩ [1, 2, 3]).as_bytes =
      .ok (Chunk.new ⟨[82, 117, 83, 116]⟩ [1, 2, 3]) :=
  c2_roundtrip.1 ⟨[82, 117, 83, 116]⟩ [1, 2, 3] rfl (by decide) (by decide)
    (by norm_num)

/-- C4 (counterexample): flipping a single bit of the type region does
not always produce `CrcMismatch`: on the valid chunk with type `"ZZZZ"`
(bytes `0x5A`), flipping bit 0 of byte 4 turns the first type byte into
`0x5B = '['`, a non-letter, and the parse panics in the
`ChunkType::try_from(...).unwrap()` before the CRC is ever checked. -/
theorem c4_crc_mismatch_counterexample :
    Chunk.try_from [0, 0, 0, 0, 90, 90, 90, 90, 47, 53, 150, 136] =
      .ok ⟨0, ⟨[90, 90, 90, 90]⟩, [], 792041096⟩ ∧
    Chunk.try_from (flipBit [0, 0, 0, 0, 90, 90, 90, 90, 47, 53, 150, 136] 4 0) =
      .panicked :=
  ⟨by decide, by decide⟩

/-- C4 (amended): for inputs that reach the CRC check, failing with
`CrcMismatch` is equivalent to the trailing 4 bytes read big-endian
differing from the recomputed CRC-32/ISO-HDLC of type bytes plus data;
and flipping any single bit of the data region — or of the type region
when the flipped byte is still an ASCII letter — of a successfully
parsed input makes the parse fail with `CrcMismatch`. (A type-region
flip to a non-letter instead hits the type-code validation, which the
code as written turns into a panic.) -/
theorem c4_crc_mismatch :
    (∀ value : List Nat,
      12 ≤ value.length →
      value.length = 4 + 4 + u32_from_be (value.take 4) + 4 →
      (∀ b ∈ (value.drop 4).take 4, is_ascii_alphabetic b) →
      ((∃ e g, Chunk.try_from value = .err (.crcMismatch e g)) ↔
        u32_from_be ((value.drop (8 + u32_from_be (value.take 4))).take 4) ≠
          crc32 ((value.drop 4).take 4 ++
            (value.drop 8).take (u32_from_be (value.take 4))))) ∧
    (∀ (value : List Nat) (c : Chunk) (i j : Nat),
      Chunk.try_from value = .ok c →
      4 ≤ i → i + 4 < value.length → j < 8 →
      (8 ≤ i ∨ is_ascii_alphabetic (value.getD i 0 ^^^ 2 ^ j)) →
      ∃ e g, Chunk.try_from (flipBit value i j) = .err (.crcMismatch e g)) := by
  constructor
  · intro value h12 hlen halpha
    simp only [Chunk.try_from]
    rw [if_neg (by omega), if_neg (by omega)]
    simp only [ChunkType.try_from_eq_ok _ halpha]
    split
    · rename_i hcond
      exact ⟨fun _ => hcond, fun _ => ⟨_, _, rfl⟩⟩
    · rename_i hcond
      constructor
      · rintro ⟨e, g, hh⟩
        exact absurd hh (by simp)
      · intro hR
        exact absurd hR hcond
  · intro value c i j hok h4i hiN hj htype
    exact flip_breaks_crc value c i j hok h4i hiN hj htype

theorem c4_crc_mismatch_witness :
    (∃ e g, Chunk.try_from [0, 0, 0, 0, 90, 90, 90, 90, 47, 53, 150, 137] =
      .err (.crcMismatch e g)) ∧
    (∃ e g, Chunk.try_from (flipBit [0, 0, 0, 0, 90, 90, 90, 90, 47, 53, 150, 136] 4 3) =
      .err (.crcMismatch e g)) :=
  ⟨(c4_crc_mismatch.1 [0, 0, 0, 0, 90, 90, 90, 90, 47, 53, 150, 137]
      (by decide) (by decide) (by decide)).mpr (by decide),
   c4_crc_mismatch.2 [0, 0, 0, 0, 90, 90, 90, 90, 47, 53, 150, 136]
     ⟨0, ⟨[90, 90, 90, 90]⟩, [], 792041096⟩ 4 3
     (by decide) (by decide) (by decide) (by decide) (Or.inr (by decide))⟩

end Pngme
